import Mathlib

/-!
Verification of the precision-node core of `biofam/core/nodes/Tau_nodes.py`:
the CAVI updates, ELBO contributions and prior sampling of the two Gamma
noise-precision nodes `TauD_Node` (one precision per feature/column) and
`TauN_Node` (one precision per sample/row).

Matrices are embedded as functions `Fin n → Fin d → ℚ`; the missing-value
mask of the observation grid is a Boolean matrix where `true` means the
entry is missing.  Sums follow numpy masked-array data semantics: a masked
entry contributes `0`, and a sum over a fully masked slice is `0`.
Transcendental functions (`log`, `gammaln`, `digamma`) enter the code only
through the ELBO and the expectation cache; they are abstracted as function
parameters, so every definition stays executable.
-/

namespace BioFAM

/-- Zero-filled working copy of the observation grid: masked entries are set
to `0` (code lines 58-59 / 135-136: `Y = Y.data; Y[mask] = 0.`). -/
def zeroFill {n d : ℕ} (Y : Fin n → Fin d → ℚ) (mask : Fin n → Fin d → Bool) :
    Fin n → Fin d → ℚ :=
  fun i j => if mask i j then 0 else Y i j

/-- Product `Z · Wᵀ` of a score grid (n×k) and a loading grid (d×k)
(code: `s.dot(Z, W.T)`). -/
def dotZWt {n d k : ℕ} (Z : Fin n → Fin k → ℚ) (W : Fin d → Fin k → ℚ) :
    Fin n → Fin d → ℚ :=
  fun i j => ∑ kk, Z i kk * W j kk

/-- Transpose of a rational matrix. -/
def transposeQ {p q : ℕ} (M : Fin p → Fin q → ℚ) : Fin q → Fin p → ℚ :=
  fun j i => M i j

/-- Transpose of a Boolean mask. -/
def transposeB {p q : ℕ} (M : Fin p → Fin q → Bool) : Fin q → Fin p → Bool :=
  fun j i => M i j

/-- Masked-array sum along axis 0 (over samples): entry `(i,j)` contributes
`0` when `mask i j` is set (code: `ma.array(..., mask=mask).sum(axis=0)`). -/
def maskedSumAx0 {n d : ℕ} (X : Fin n → Fin d → ℚ) (mask : Fin n → Fin d → Bool) :
    Fin d → ℚ :=
  fun j => ∑ i, if mask i j then 0 else X i j

/-- Masked-array sum along axis 1 (over features). -/
def maskedSumAx1 {n d : ℕ} (X : Fin n → Fin d → ℚ) (mask : Fin n → Fin d → Bool) :
    Fin n → ℚ :=
  fun i => ∑ j, if mask i j then 0 else X i j

/-- Modelled from the spec: `dotd` lives in `biofam.core.utils`, which is not
under `src/`.  Per the spec it returns the diagonal of the product `A · B` of
two masked matrices without materializing the product, with the mask
respected: a position masked in either operand contributes `0` to the
corresponding diagonal sum. -/
def dotd {p q : ℕ} (A : Fin p → Fin q → ℚ) (B : Fin q → Fin p → ℚ)
    (mA : Fin p → Fin q → Bool) (mB : Fin q → Fin p → Bool) : Fin p → ℚ :=
  fun i => ∑ j, if mA i j || mB j i then 0 else A i j * B j i

/-- Prior or posterior parameter grids of a Gamma node: shape `a` and rate
`b`, stored broadcast to the full `(n, d)` grid. -/
structure GammaParams (n d : ℕ) where
  a : Fin n → Fin d → ℚ
  b : Fin n → Fin d → ℚ

/-! ### TauD_Node.updateParameters (code lines 38-86) -/

/-- Code line 63: `term1 = s.square(Y.astype("float64")).sum(axis=0)` on the
zero-filled copy of `Y`. -/
def term1TauD {n d : ℕ} (Y : Fin n → Fin d → ℚ) (mask : Fin n → Fin d → Bool) :
    Fin d → ℚ :=
  fun j => ∑ i, (zeroFill Y mask i j) ^ 2

/-- Code line 66: `term2 = 2.*(Y*s.dot(Z,W.T)).sum(axis=0)` on the
zero-filled copy of `Y`. -/
def term2TauD {n d k : ℕ} (Y : Fin n → Fin d → ℚ) (mask : Fin n → Fin d → Bool)
    (Z : Fin n → Fin k → ℚ) (W : Fin d → Fin k → ℚ) : Fin d → ℚ :=
  fun j => 2 * ∑ i, zeroFill Y mask i j * dotZWt Z W i j

/-- Code line 69: `term3 = ma.array(ZZ.dot(WW.T), mask=mask).sum(axis=0)`. -/
def term3TauD {n d k : ℕ} (mask : Fin n → Fin d → Bool)
    (ZZ : Fin n → Fin k → ℚ) (WW : Fin d → Fin k → ℚ) : Fin d → ℚ :=
  maskedSumAx0 (dotZWt ZZ WW) mask

/-- Code lines 76-77: `WZ = ma.array(W.dot(Z.T), mask=mask.T)` and
`term4 = dotd(WZ, WZ.T) - ma.array(s.dot(s.square(Z),s.square(W).T), mask=mask).sum(axis=0)`. -/
def term4TauD {n d k : ℕ} (mask : Fin n → Fin d → Bool)
    (Z : Fin n → Fin k → ℚ) (W : Fin d → Fin k → ℚ) : Fin d → ℚ :=
  fun j =>
    dotd (dotZWt W Z) (transposeQ (dotZWt W Z)) (transposeB mask) mask j
      - maskedSumAx0 (fun i j2 => ∑ kk, (Z i kk) ^ 2 * (W j2 kk) ^ 2) mask j

/-- Code line 79: `tmp = term1 - term2 + term3 + term4`. -/
def tmpTauD {n d k : ℕ} (Y : Fin n → Fin d → ℚ) (mask : Fin n → Fin d → Bool)
    (Z ZZ : Fin n → Fin k → ℚ) (W WW : Fin d → Fin k → ℚ) : Fin d → ℚ :=
  fun j => term1TauD Y mask j - term2TauD Y mask Z W j + term3TauD mask ZZ WW j
    + term4TauD mask Z W j

/-- Number of masked entries in column `j` (code: `mask.sum(axis=0)`). -/
def maskCountAx0 {n d : ℕ} (mask : Fin n → Fin d → Bool) : Fin d → ℕ :=
  fun j => ∑ i, if mask i j then 1 else 0

/-- Code line 82's count per column: `Y.shape[0] - mask.sum(axis=0)`. -/
def rowsMinusMaskAx0 {n d : ℕ} (mask : Fin n → Fin d → Bool) : Fin d → ℕ :=
  fun j => n - maskCountAx0 mask j

/-- Code lines 82-83: the updated posterior parameters of `TauD_Node`,
`Qa = Pa + repeat(count)/2` and `Qb = Pb + repeat(tmp)/2`, the per-column
values broadcast over the `N` rows. -/
def updateParametersTauD {n d k : ℕ} (P : GammaParams n d)
    (Y : Fin n → Fin d → ℚ) (mask : Fin n → Fin d → Bool)
    (Z ZZ : Fin n → Fin k → ℚ) (W WW : Fin d → Fin k → ℚ) : GammaParams n d where
  a := fun i j => P.a i j + (rowsMinusMaskAx0 mask j : ℚ) / 2
  b := fun i j => P.b i j + tmpTauD Y mask Z ZZ W WW j / 2

/-! ### TauN_Node.updateParameters (code lines 116-155) -/

/-- Code line 139: `term1 = s.square(Y.astype("float64")).sum(axis=1)`. -/
def term1TauN {n d : ℕ} (Y : Fin n → Fin d → ℚ) (mask : Fin n → Fin d → Bool) :
    Fin n → ℚ :=
  fun i => ∑ j, (zeroFill Y mask i j) ^ 2

/-- Code line 141: `term2 = 2.*(Y*s.dot(Z,W.T)).sum(axis=1)`. -/
def term2TauN {n d k : ℕ} (Y : Fin n → Fin d → ℚ) (mask : Fin n → Fin d → Bool)
    (Z : Fin n → Fin k → ℚ) (W : Fin d → Fin k → ℚ) : Fin n → ℚ :=
  fun i => 2 * ∑ j, zeroFill Y mask i j * dotZWt Z W i j

/-- Code line 143: `term3 = ma.array(ZZ.dot(WW.T), mask=mask).sum(axis=1)`. -/
def term3TauN {n d k : ℕ} (mask : Fin n → Fin d → Bool)
    (ZZ : Fin n → Fin k → ℚ) (WW : Fin d → Fin k → ℚ) : Fin n → ℚ :=
  maskedSumAx1 (dotZWt ZZ WW) mask

/-- Code lines 145-146: `ZW = ma.array(Z.dot(W.T), mask=mask)` and
`term4 = dotd(ZW, ZW.T) - ma.array(s.dot(s.square(Z), s.square(W).T), mask=mask).sum(axis=1)`. -/
def term4TauN {n d k : ℕ} (mask : Fin n → Fin d → Bool)
    (Z : Fin n → Fin k → ℚ) (W : Fin d → Fin k → ℚ) : Fin n → ℚ :=
  fun i =>
    dotd (dotZWt Z W) (transposeQ (dotZWt Z W)) mask (transposeB mask) i
      - maskedSumAx1 (fun i2 j => ∑ kk, (Z i2 kk) ^ 2 * (W j kk) ^ 2) mask i

/-- Code line 148: `tmp = term1 - term2 + term3 + term4`. -/
def tmpTauN {n d k : ℕ} (Y : Fin n → Fin d → ℚ) (mask : Fin n → Fin d → Bool)
    (Z ZZ : Fin n → Fin k → ℚ) (W WW : Fin d → Fin k → ℚ) : Fin n → ℚ :=
  fun i => term1TauN Y mask i - term2TauN Y mask Z W i + term3TauN mask ZZ WW i
    + term4TauN mask Z W i

/-- Number of masked entries in row `i` (code: `mask.sum(axis=1)`). -/
def maskCountAx1 {n d : ℕ} (mask : Fin n → Fin d → Bool) : Fin n → ℕ :=
  fun i => ∑ j, if mask i j then 1 else 0

/-- Code line 151's count per row: `Y.shape[1] - mask.sum(axis=1)`. -/
def colsMinusMaskAx1 {n d : ℕ} (mask : Fin n → Fin d → Bool) : Fin n → ℕ :=
  fun i => d - maskCountAx1 mask i

/-- Code lines 151-152: the updated posterior parameters of `TauN_Node`,
the per-row values broadcast over the `D` columns. -/
def updateParametersTauN {n d k : ℕ} (P : GammaParams n d)
    (Y : Fin n → Fin d → ℚ) (mask : Fin n → Fin d → Bool)
    (Z ZZ : Fin n → Fin k → ℚ) (W WW : Fin d → Fin k → ℚ) : GammaParams n d where
  a := fun i j => P.a i j + (colsMinusMaskAx1 mask i : ℚ) / 2
  b := fun i j => P.b i j + tmpTauN Y mask Z ZZ W WW i / 2

/-! ### calculateELBO (code lines 88-98 and 157-173) and precompute -/

/-- Code line 22 (`TauD_Node.precompute`): the prior constant
`lbconst = sum(Pa[0,:]*log(Pb[0,:]) - gammaln(Pa[0,:]))` over the canonical
row-0 slice.  `logf` and `gammalnf` abstract `s.log` and `special.gammaln`. -/
def lbconstTauD {n d : ℕ} [NeZero n] (Pa Pb : Fin n → Fin d → ℚ)
    (logf gammalnf : ℚ → ℚ) : ℚ :=
  ∑ j, (Pa 0 j * logf (Pb 0 j) - gammalnf (Pa 0 j))

/-- Code line 114 (`TauN_Node.precompute`): the same constant over the
canonical column-0 slice. -/
def lbconstTauN {n d : ℕ} [NeZero d] (Pa Pb : Fin n → Fin d → ℚ)
    (logf gammalnf : ℚ → ℚ) : ℚ :=
  ∑ i, (Pa i 0 * logf (Pb i 0) - gammalnf (Pa i 0))

/-- Code lines 88-98 (`TauD_Node.calculateELBO`): all grids are sliced to
row 0, then `lb_p = lbconst + sum((Pa-1)*QlnE) - sum(Pb*QE)` and
`lb_q = sum(Qa*log(Qb)) + sum((Qa-1)*QlnE) - sum(Qb*QE) - sum(gammaln(Qa))`
are combined into the returned scalar `lb_p - lb_q`. -/
def calculateELBOTauD {n d : ℕ} [NeZero n] (lbconst : ℚ)
    (Pa Pb Qa Qb QE QlnE : Fin n → Fin d → ℚ) (logf gammalnf : ℚ → ℚ) : ℚ :=
  (lbconst + (∑ j, (Pa 0 j - 1) * QlnE 0 j) - ∑ j, Pb 0 j * QE 0 j)
    - ((∑ j, Qa 0 j * logf (Qb 0 j)) + (∑ j, (Qa 0 j - 1) * QlnE 0 j)
        - (∑ j, Qb 0 j * QE 0 j) - ∑ j, gammalnf (Qa 0 j))

/-- Code lines 157-173 (`TauN_Node.calculateELBO`): identical formula over
the column-0 slice. -/
def calculateELBOTauN {n d : ℕ} [NeZero d] (lbconst : ℚ)
    (Pa Pb Qa Qb QE QlnE : Fin n → Fin d → ℚ) (logf gammalnf : ℚ → ℚ) : ℚ :=
  (lbconst + (∑ i, (Pa i 0 - 1) * QlnE i 0) - ∑ i, Pb i 0 * QE i 0)
    - ((∑ i, Qa i 0 * logf (Qb i 0)) + (∑ i, (Qa i 0 - 1) * QlnE i 0)
        - (∑ i, Qb i 0 * QE i 0) - ∑ i, gammalnf (Qa i 0))

/-! ### Node state, setParameters and sample -/

/-- Cached expectation grids of the variational posterior:
`E = E[tau]` and `lnE = E[ln tau]`. -/
structure ExpCache (n d : ℕ) where
  E : Fin n → Fin d → ℚ
  lnE : Fin n → Fin d → ℚ

/-- State of a `TauD_Node`: prior `P`, posterior `Q` with its expectation
cache, the observation node's data grid and mask (reached through the Markov
blanket), the factor expectation grids `(E, E2)` for the score node (`Z` or
`SZ`) and the loading node (`W` or `SW`), the cached canonical length `N`
and `lbconst` set by `precompute`, and the last drawn sample. -/
structure TauDState (n d k : ℕ) where
  P : GammaParams n d
  Q : GammaParams n d
  Qexp : ExpCache n d
  Ydata : Fin n → Fin d → ℚ
  Ymask : Fin n → Fin d → Bool
  Zexp : (Fin n → Fin k → ℚ) × (Fin n → Fin k → ℚ)
  Wexp : (Fin d → Fin k → ℚ) × (Fin d → Fin k → ℚ)
  cachedN : ℕ
  lbconst : ℚ
  samp : Option (Fin d → ℚ)

/-- State of a `TauN_Node`; the cached canonical length is `D` and the
sample has the canonical per-sample shape. -/
structure TauNState (n d k : ℕ) where
  P : GammaParams n d
  Q : GammaParams n d
  Qexp : ExpCache n d
  Ydata : Fin n → Fin d → ℚ
  Ymask : Fin n → Fin d → Bool
  Zexp : (Fin n → Fin k → ℚ) × (Fin n → Fin k → ℚ)
  Wexp : (Fin d → Fin k → ℚ) × (Fin d → Fin k → ℚ)
  cachedD : ℕ
  lbconst : ℚ
  samp : Option (Fin n → ℚ)

/-- Modelled from the spec: `Q.setParameters` of the Gamma variational-node
base class (`variational_nodes.py` / `distributions.py`, not under `src/`)
replaces the posterior parameter arrays and recomputes the derived
expectation cache `E[tau] = a/b`, `E[ln tau] = digamma(a) - ln(b)`.
`digammaf` and `logf` abstract the transcendental functions. -/
def gammaExpectations {n d : ℕ} (digammaf logf : ℚ → ℚ) (Qnew : GammaParams n d) :
    ExpCache n d :=
  ⟨fun i j => Qnew.a i j / Qnew.b i j,
   fun i j => digammaf (Qnew.a i j) - logf (Qnew.b i j)⟩

/-- Code lines 38-86 as a state transformer: `TauD_Node.updateParameters`
reads the blanket, computes the new posterior parameters from a zero-filled
local copy of `Y`, and commits them via `setParameters` (which refreshes the
expectation cache).  Every other field is left as it was. -/
def updateStateTauD {n d k : ℕ} (digammaf logf : ℚ → ℚ) (st : TauDState n d k) :
    TauDState n d k :=
  let Qnew := updateParametersTauD st.P st.Ydata st.Ymask
    st.Zexp.1 st.Zexp.2 st.Wexp.1 st.Wexp.2
  { st with Q := Qnew, Qexp := gammaExpectations digammaf logf Qnew }

/-- Code lines 116-155 as a state transformer for `TauN_Node`. -/
def updateStateTauN {n d k : ℕ} (digammaf logf : ℚ → ℚ) (st : TauNState n d k) :
    TauNState n d k :=
  let Qnew := updateParametersTauN st.P st.Ydata st.Ymask
    st.Zexp.1 st.Zexp.2 st.Wexp.1 st.Wexp.2
  { st with Q := Qnew, Qexp := gammaExpectations digammaf logf Qnew }

/-- Code lines 100-104 (`TauD_Node.sample`): a Gamma distribution is built
from the row-0 slice of the prior (`a=P.a[0,:]`, `b=P.b[0,:]`, dim `(D,1)`),
one realization is drawn, stored in `self.samp` and returned.  The `distrib`
argument is accepted but never read.  `drawGamma` abstracts the
`Gamma(...).sample()` draw of `distributions.py` (modelled from the spec:
that module is not under `src/`); it receives exactly the shape and rate
vectors the code passes to the `Gamma` constructor. -/
def sampleTauD {n d k : ℕ} [NeZero n] (st : TauDState n d k) (distrib : String)
    (drawGamma : (Fin d → ℚ) → (Fin d → ℚ) → Fin d → ℚ) :
    (Fin d → ℚ) × TauDState n d k :=
  let _ := distrib
  let sampled := drawGamma (fun j => st.P.a 0 j) (fun j => st.P.b 0 j)
  (sampled, { st with samp := some sampled })

/-- Code lines 175-179 (`TauN_Node.sample`): the same with the column-0
slice of the prior and dim `(N,1)`. -/
def sampleTauN {n d k : ℕ} [NeZero d] (st : TauNState n d k) (distrib : String)
    (drawGamma : (Fin n → ℚ) → (Fin n → ℚ) → Fin n → ℚ) :
    (Fin n → ℚ) × TauNState n d k :=
  let _ := distrib
  let sampled := drawGamma (fun i => st.P.a i 0) (fun i => st.P.b i 0)
  (sampled, { st with samp := some sampled })

/-! ### Spec-side reference definitions -/

/-- Directly expanded expected squared residual of the spec:
`E[(Y[n,d] - sum_k Z[n,k] W[d,k])^2]`, where each squared factor entry is
replaced by its second moment `E2` and each cross-k product by the product
of first moments. -/
def expandedSqResidual {n d k : ℕ} (Y : Fin n → Fin d → ℚ)
    (Z ZZ : Fin n → Fin k → ℚ) (W WW : Fin d → Fin k → ℚ) :
    Fin n → Fin d → ℚ :=
  fun i j =>
    Y i j ^ 2 - 2 * Y i j * (∑ kk, Z i kk * W j kk)
      + ∑ kk, ∑ kk2, if kk = kk2 then ZZ i kk * WW j kk
          else Z i kk * W j kk * (Z i kk2 * W j kk2)

/-- Spec-side prior term of the ELBO on the canonical slice:
`lb_p = lbconst + sum((Pa-1)*E[ln tau]) - sum(Pb*E[tau])`. -/
def lbpSpec {c : ℕ} (lbconst : ℚ) (Pa Pb ElnTau ETau : Fin c → ℚ) : ℚ :=
  lbconst + (∑ x, (Pa x - 1) * ElnTau x) - ∑ x, Pb x * ETau x

/-- Spec-side posterior entropy term of the ELBO on the canonical slice:
`lb_q = sum(Qa*ln(Qb)) + sum((Qa-1)*E[ln tau]) - sum(Qb*E[tau]) - sum(lnGamma(Qa))`. -/
def lbqSpec {c : ℕ} (Qa Qb ElnTau ETau : Fin c → ℚ) (logf gammalnf : ℚ → ℚ) : ℚ :=
  (∑ x, Qa x * logf (Qb x)) + (∑ x, (Qa x - 1) * ElnTau x)
    - (∑ x, Qb x * ETau x) - ∑ x, gammalnf (Qa x)

/-! ### Helper lemmas -/

/-- Splitting a double sum over pairs into its diagonal (`g`) and its
off-diagonal cross products of `f`: this is the algebraic content of the
`term3 + term4` decomposition. -/
lemma sum_ite_diag {k : ℕ} (f g : Fin k → ℚ) :
    ∑ kk, ∑ kk2, (if kk = kk2 then g kk else f kk * f kk2)
      = (∑ kk, g kk) - (∑ kk, f kk * f kk) + (∑ kk, f kk) * (∑ kk, f kk) := by
  have h1 : ∀ kk : Fin k,
      (∑ kk2, if kk = kk2 then g kk else f kk * f kk2)
        = g kk - f kk * f kk + ∑ kk2, f kk * f kk2 := by
    intro kk
    calc (∑ kk2, if kk = kk2 then g kk else f kk * f kk2)
        = ∑ kk2, ((if kk = kk2 then g kk - f kk * f kk2 else 0) + f kk * f kk2) :=
          Finset.sum_congr rfl (fun kk2 _ => by split <;> ring)
      _ = (∑ kk2, if kk = kk2 then g kk - f kk * f kk2 else 0) + ∑ kk2, f kk * f kk2 :=
          Finset.sum_add_distrib
      _ = g kk - f kk * f kk + ∑ kk2, f kk * f kk2 := by
          rw [Finset.sum_ite_eq]; simp
  calc ∑ kk, ∑ kk2, (if kk = kk2 then g kk else f kk * f kk2)
      = ∑ kk, (g kk - f kk * f kk + ∑ kk2, f kk * f kk2) :=
        Finset.sum_congr rfl (fun kk _ => h1 kk)
    _ = (∑ kk, (g kk - f kk * f kk)) + ∑ kk, f kk * ∑ kk2, f kk2 := by
        rw [Finset.sum_add_distrib]
        exact congrArg _ (Finset.sum_congr rfl (fun kk _ => by rw [Finset.mul_sum]))
    _ = (∑ kk, g kk) - (∑ kk, f kk * f kk) + (∑ kk, f kk) * (∑ kk, f kk) := by
        rw [Finset.sum_sub_distrib, ← Finset.sum_mul]

/-- The four-term decomposition of `TauD_Node.updateParameters` equals the
masked sum of the directly expanded expected squared residuals. -/
lemma tmpTauD_eq_maskedResidual {n d k : ℕ} (Y : Fin n → Fin d → ℚ)
    (mask : Fin n → Fin d → Bool) (Z ZZ : Fin n → Fin k → ℚ)
    (W WW : Fin d → Fin k → ℚ) (j : Fin d) :
    tmpTauD Y mask Z ZZ W WW j
      = ∑ i, if mask i j then 0 else expandedSqResidual Y Z ZZ W WW i j := by
  have h1 : term1TauD Y mask j = ∑ i, (if mask i j then 0 else Y i j ^ 2) :=
    Finset.sum_congr rfl (fun i _ => by unfold zeroFill; split <;> ring)
  have h2 : term2TauD Y mask Z W j
      = ∑ i, (if mask i j then 0 else 2 * Y i j * dotZWt Z W i j) := by
    unfold term2TauD
    rw [Finset.mul_sum]
    exact Finset.sum_congr rfl (fun i _ => by unfold zeroFill; split <;> ring)
  have h3 : term3TauD mask ZZ WW j
      = ∑ i, (if mask i j then 0 else dotZWt ZZ WW i j) := rfl
  have h4 : term4TauD mask Z W j
      = (∑ i, (if mask i j then 0 else dotZWt Z W i j * dotZWt Z W i j))
        - ∑ i, (if mask i j then 0 else ∑ kk, (Z i kk) ^ 2 * (W j kk) ^ 2) := by
    unfold term4TauD dotd maskedSumAx0 transposeQ transposeB
    have hc : ∀ i : Fin n, dotZWt W Z j i = dotZWt Z W i j :=
      fun i => Finset.sum_congr rfl (fun kk _ => mul_comm _ _)
    exact congrArg₂ (· - ·)
      (Finset.sum_congr rfl (fun i _ => by rw [Bool.or_self, hc])) rfl
  have hpt : ∀ i : Fin n,
      (if mask i j then 0 else expandedSqResidual Y Z ZZ W WW i j)
        = (if mask i j then 0 else Y i j ^ 2)
          - (if mask i j then 0 else 2 * Y i j * dotZWt Z W i j)
          + (if mask i j then 0 else dotZWt ZZ WW i j)
          + ((if mask i j then 0 else dotZWt Z W i j * dotZWt Z W i j)
              - (if mask i j then 0 else ∑ kk, (Z i kk) ^ 2 * (W j kk) ^ 2)) := by
    intro i
    by_cases h : mask i j
    · simp [h]
    · simp only [h, if_neg, Bool.false_eq_true, if_false]
      unfold expandedSqResidual dotZWt
      rw [sum_ite_diag (fun kk => Z i kk * W j kk) (fun kk => ZZ i kk * WW j kk)]
      have hsq : ∑ kk, (Z i kk * W j kk) * (Z i kk * W j kk)
          = ∑ kk, (Z i kk) ^ 2 * (W j kk) ^ 2 :=
        Finset.sum_congr rfl (fun kk _ => by ring)
      rw [hsq]; ring
  calc tmpTauD Y mask Z ZZ W WW j
      = term1TauD Y mask j - term2TauD Y mask Z W j + term3TauD mask ZZ WW j
          + term4TauD mask Z W j := rfl
    _ = (∑ i, (if mask i j then 0 else Y i j ^ 2))
          - (∑ i, (if mask i j then 0 else 2 * Y i j * dotZWt Z W i j))
          + (∑ i, (if mask i j then 0 else dotZWt ZZ WW i j))
          + ((∑ i, (if mask i j then 0 else dotZWt Z W i j * dotZWt Z W i j))
              - ∑ i, (if mask i j then 0 else ∑ kk, (Z i kk) ^ 2 * (W j kk) ^ 2)) := by
        rw [h1, h2, h3, h4]
    _ = ∑ i, if mask i j then 0 else expandedSqResidual Y Z ZZ W WW i j := by
        rw [Finset.sum_congr rfl (fun i _ => hpt i), Finset.sum_add_distrib,
          Finset.sum_add_distrib, Finset.sum_sub_distrib, Finset.sum_sub_distrib]

/-- The expanded residual is symmetric under transposing the observation and
exchanging the score and loading roles. -/
lemma expandedSqResidual_transpose {n d k : ℕ} (Y : Fin n → Fin d → ℚ)
    (Z ZZ : Fin n → Fin k → ℚ) (W WW : Fin d → Fin k → ℚ) (i : Fin n) (j : Fin d) :
    expandedSqResidual (transposeQ Y) W WW Z ZZ j i
      = expandedSqResidual Y Z ZZ W WW i j := by
  unfold expandedSqResidual transposeQ
  have hR : (∑ kk, W j kk * Z i kk) = ∑ kk, Z i kk * W j kk :=
    Finset.sum_congr rfl (fun kk _ => mul_comm _ _)
  have hD : (∑ kk, ∑ kk2, if kk = kk2 then WW j kk * ZZ i kk
        else W j kk * Z i kk * (W j kk2 * Z i kk2))
      = ∑ kk, ∑ kk2, if kk = kk2 then ZZ i kk * WW j kk
          else Z i kk * W j kk * (Z i kk2 * W j kk2) :=
    Finset.sum_congr rfl (fun kk _ => Finset.sum_congr rfl (fun kk2 _ => by
      split <;> ring))
  rw [hR, hD]

/-- The `TauN` residual is the `TauD` residual of the transposed problem
(observation and mask transposed, score and loading roles exchanged). -/
lemma tmpTauN_eq_mirror {n d k : ℕ} (Y : Fin n → Fin d → ℚ)
    (mask : Fin n → Fin d → Bool) (Z ZZ : Fin n → Fin k → ℚ)
    (W WW : Fin d → Fin k → ℚ) (i : Fin n) :
    tmpTauN Y mask Z ZZ W WW i
      = tmpTauD (transposeQ Y) (transposeB mask) W WW Z ZZ i := by
  have e1 : term1TauN Y mask i = term1TauD (transposeQ Y) (transposeB mask) i := rfl
  have e2 : term2TauN Y mask Z W i
      = term2TauD (transposeQ Y) (transposeB mask) W Z i := by
    unfold term2TauN term2TauD
    refine congrArg (2 * ·) (Finset.sum_congr rfl (fun j _ => ?_))
    have hc : dotZWt W Z j i = dotZWt Z W i j :=
      Finset.sum_congr rfl (fun kk _ => mul_comm _ _)
    rw [hc]
    rfl
  have e3 : term3TauN mask ZZ WW i = term3TauD (transposeB mask) WW ZZ i := by
    unfold term3TauN term3TauD maskedSumAx0 maskedSumAx1
    refine Finset.sum_congr rfl (fun j _ => ?_)
    have hc : dotZWt WW ZZ j i = dotZWt ZZ WW i j :=
      Finset.sum_congr rfl (fun kk _ => mul_comm _ _)
    rw [hc]
    rfl
  have e4 : term4TauN mask Z W i = term4TauD (transposeB mask) W Z i := by
    unfold term4TauN term4TauD maskedSumAx0 maskedSumAx1
    refine congrArg₂ (· - ·) rfl (Finset.sum_congr rfl (fun j _ => ?_))
    show (if mask i j then (0 : ℚ) else ∑ kk, (Z i kk) ^ 2 * (W j kk) ^ 2)
        = if transposeB mask j i then (0 : ℚ) else ∑ kk, (W j kk) ^ 2 * (Z i kk) ^ 2
    have hc : (∑ kk, (W j kk) ^ 2 * (Z i kk) ^ 2)
        = ∑ kk, (Z i kk) ^ 2 * (W j kk) ^ 2 :=
      Finset.sum_congr rfl (fun kk _ => mul_comm _ _)
    rw [hc]
    rfl
  show term1TauN Y mask i - term2TauN Y mask Z W i + term3TauN mask ZZ WW i
      + term4TauN mask Z W i = _
  rw [e1, e2, e3, e4]
  rfl

/-- The `TauN` four-term decomposition equals the masked sum of expanded
expected squared residuals over the features of one sample. -/
lemma tmpTauN_eq_maskedResidual {n d k : ℕ} (Y : Fin n → Fin d → ℚ)
    (mask : Fin n → Fin d → Bool) (Z ZZ : Fin n → Fin k → ℚ)
    (W WW : Fin d → Fin k → ℚ) (i : Fin n) :
    tmpTauN Y mask Z ZZ W WW i
      = ∑ j, if mask i j then 0 else expandedSqResidual Y Z ZZ W WW i j := by
  rw [tmpTauN_eq_mirror, tmpTauD_eq_maskedResidual]
  refine Finset.sum_congr rfl (fun j _ => ?_)
  by_cases h : mask i j
  · have h2 : transposeB mask j i = true := h
    rw [h2, if_pos rfl, if_pos h]
  · have h2 : transposeB mask j i = false := by simpa [transposeB] using h
    rw [h2]
    simp only [Bool.false_eq_true, if_false, h]
    exact expandedSqResidual_transpose Y Z ZZ W WW i j

/-- The `TauN` update is the transposed `TauD` update of the transposed
problem, componentwise. -/
lemma updateTauN_eq_mirror {n d k : ℕ} (P : GammaParams n d)
    (Y : Fin n → Fin d → ℚ) (mask : Fin n → Fin d → Bool)
    (Z ZZ : Fin n → Fin k → ℚ) (W WW : Fin d → Fin k → ℚ) :
    (updateParametersTauN P Y mask Z ZZ W WW).a
        = (fun i j => (updateParametersTauD ⟨transposeQ P.a, transposeQ P.b⟩
            (transposeQ Y) (transposeB mask) W WW Z ZZ).a j i)
      ∧ (updateParametersTauN P Y mask Z ZZ W WW).b
        = (fun i j => (updateParametersTauD ⟨transposeQ P.a, transposeQ P.b⟩
            (transposeQ Y) (transposeB mask) W WW Z ZZ).b j i) := by
  constructor
  · funext i j
    rfl
  · funext i j
    show P.b i j + tmpTauN Y mask Z ZZ W WW i / 2
        = transposeQ P.b j i
          + tmpTauD (transposeQ Y) (transposeB mask) W WW Z ZZ i / 2
    rw [tmpTauN_eq_mirror]
    rfl

/-- Row-0 slice of a grid (code: `M[0,:]`). -/
def rowSlice {n d : ℕ} [NeZero n] (M : Fin n → Fin d → ℚ) : Fin d → ℚ :=
  fun j => M 0 j

/-- Column-0 slice of a grid (code: `M[:,0]`). -/
def colSlice {n d : ℕ} [NeZero d] (M : Fin n → Fin d → ℚ) : Fin n → ℚ :=
  fun i => M i 0

/-! ### Claim theorems -/

/-- C1: if every entry of column `jD` of a `TauD_Node`'s observation grid is
masked missing, `TauD_Node.updateParameters` leaves the posterior for that
column equal to the prior (`Qa[:,jD] = Pa[:,jD]`, `Qb[:,jD] = Pb[:,jD]`) and
the residual for that column is `0`; symmetrically and independently, if row
`iN` of a `TauN_Node`'s observation grid is entirely masked,
`TauN_Node.updateParameters` leaves the posterior for that row equal to the
prior and the row residual is `0`.  The two halves are over separate
observation grids and masks (`YD`/`maskD` versus `YN`/`maskN`), so each
conditional constrains only its own node.  No error is possible: the update
is a total function. -/
theorem tau_allMissing_posterior_is_prior {n d k : ℕ}
    (PD PN : GammaParams n d) (YD YN : Fin n → Fin d → ℚ)
    (maskD maskN : Fin n → Fin d → Bool) (Z ZZ : Fin n → Fin k → ℚ)
    (W WW : Fin d → Fin k → ℚ) (i : Fin n) (j : Fin d) (jD : Fin d) (iN : Fin n)
    (hD : ∀ i2, maskD i2 jD = true) (hN : ∀ j2, maskN iN j2 = true) :
    (updateParametersTauD PD YD maskD Z ZZ W WW).a i jD = PD.a i jD
    ∧ (updateParametersTauD PD YD maskD Z ZZ W WW).b i jD = PD.b i jD
    ∧ tmpTauD YD maskD Z ZZ W WW jD = 0
    ∧ (updateParametersTauN PN YN maskN Z ZZ W WW).a iN j = PN.a iN j
    ∧ (updateParametersTauN PN YN maskN Z ZZ W WW).b iN j = PN.b iN j
    ∧ tmpTauN YN maskN Z ZZ W WW iN = 0 := by
  have htmpD : tmpTauD YD maskD Z ZZ W WW jD = 0 := by
    rw [tmpTauD_eq_maskedResidual]
    simp [hD]
  have htmpN : tmpTauN YN maskN Z ZZ W WW iN = 0 := by
    rw [tmpTauN_eq_maskedResidual]
    simp [hN]
  have hcntD : rowsMinusMaskAx0 maskD jD = 0 := by
    unfold rowsMinusMaskAx0 maskCountAx0
    simp [hD]
  have hcntN : colsMinusMaskAx1 maskN iN = 0 := by
    unfold colsMinusMaskAx1 maskCountAx1
    simp [hN]
  refine ⟨?_, ?_, htmpD, ?_, ?_, htmpN⟩
  · show PD.a i jD + (rowsMinusMaskAx0 maskD jD : ℚ) / 2 = PD.a i jD
    rw [hcntD]; norm_num
  · show PD.b i jD + tmpTauD YD maskD Z ZZ W WW jD / 2 = PD.b i jD
    rw [htmpD]; norm_num
  · show PN.a iN j + (colsMinusMaskAx1 maskN iN : ℚ) / 2 = PN.a iN j
    rw [hcntN]; norm_num
  · show PN.b iN j + tmpTauN YN maskN Z ZZ W WW iN / 2 = PN.b iN j
    rw [htmpN]; norm_num

/-- C2: with no masked entries, the four-term quantity
`tmp = term1 - term2 + term3 + term4` of `TauD_Node.updateParameters` equals,
for every feature, the directly expanded expected squared residual summed
over all samples. -/
theorem tauD_residual_exact_nomask {n d k : ℕ} (Y : Fin n → Fin d → ℚ)
    (Z ZZ : Fin n → Fin k → ℚ) (W WW : Fin d → Fin k → ℚ) (j : Fin d) :
    tmpTauD Y (fun _ _ => false) Z ZZ W WW j
      = ∑ i, expandedSqResidual Y Z ZZ W WW i j := by
  rw [tmpTauD_eq_maskedResidual]
  simp

/-- C3: under an arbitrary missing-value mask the residual of
`TauD_Node.updateParameters` is exact over the non-missing entries: `tmp`
equals the sum over non-missing samples of the expanded expected squared
residual, and the committed `Qb` is the prior rate plus half that masked
residual. -/
theorem tauD_residual_exact_masked {n d k : ℕ} (P : GammaParams n d)
    (Y : Fin n → Fin d → ℚ) (mask : Fin n → Fin d → Bool)
    (Z ZZ : Fin n → Fin k → ℚ) (W WW : Fin d → Fin k → ℚ)
    (i : Fin n) (j : Fin d) :
    tmpTauD Y mask Z ZZ W WW j
        = (∑ i2, if mask i2 j then 0 else expandedSqResidual Y Z ZZ W WW i2 j)
    ∧ (updateParametersTauD P Y mask Z ZZ W WW).b i j
        = P.b i j
          + (∑ i2, if mask i2 j then 0 else expandedSqResidual Y Z ZZ W WW i2 j) / 2 := by
  refine ⟨tmpTauD_eq_maskedResidual Y mask Z ZZ W WW j, ?_⟩
  show P.b i j + tmpTauD Y mask Z ZZ W WW j / 2 = _
  rw [tmpTauD_eq_maskedResidual]

/-- C4: for every missing-value pattern, twice the increment `Qa - Pa` is
the count of non-missing entries along the aggregation axis, broadcast over
the redundant axis: per column for `TauD_Node`, per row for `TauN_Node`. -/
theorem tau_posterior_count_consistency {n d k : ℕ} (PD PN : GammaParams n d)
    (Y : Fin n → Fin d → ℚ) (mask : Fin n → Fin d → Bool)
    (Z ZZ : Fin n → Fin k → ℚ) (W WW : Fin d → Fin k → ℚ)
    (i : Fin n) (j : Fin d) :
    2 * ((updateParametersTauD PD Y mask Z ZZ W WW).a i j - PD.a i j)
        = ((Finset.univ.filter (fun i2 : Fin n => mask i2 j = false)).card : ℚ)
    ∧ 2 * ((updateParametersTauN PN Y mask Z ZZ W WW).a i j - PN.a i j)
        = ((Finset.univ.filter (fun j2 : Fin d => mask i j2 = false)).card : ℚ) := by
  constructor
  · show 2 * (PD.a i j + (rowsMinusMaskAx0 mask j : ℚ) / 2 - PD.a i j) = _
    have hcard : rowsMinusMaskAx0 mask j
        = (Finset.univ.filter (fun i2 : Fin n => mask i2 j = false)).card := by
      unfold rowsMinusMaskAx0 maskCountAx0
      have hsum : (∑ i2 : Fin n, if mask i2 j then 1 else 0)
          = (Finset.univ.filter (fun i2 : Fin n => mask i2 j = true)).card := by
        simp [Finset.sum_boole]
      have hsplit : (Finset.univ.filter (fun i2 : Fin n => mask i2 j = true)).card
          + (Finset.univ.filter (fun i2 : Fin n => mask i2 j = false)).card = n := by
        classical
        have := Finset.filter_card_add_filter_neg_card_eq_card
          (s := (Finset.univ : Finset (Fin n))) (p := fun i2 => mask i2 j = true)
        simp only [Finset.card_univ, Fintype.card_fin] at this
        have hneg : Finset.filter (fun a : Fin n => ¬ mask a j = true) Finset.univ
            = Finset.filter (fun i2 : Fin n => mask i2 j = false) Finset.univ := by
          apply Finset.filter_congr
          intro x _
          simp
        rw [hneg] at this
        exact this
      omega
    rw [hcard]; ring
  · show 2 * (PN.a i j + (colsMinusMaskAx1 mask i : ℚ) / 2 - PN.a i j) = _
    have hcard : colsMinusMaskAx1 mask i
        = (Finset.univ.filter (fun j2 : Fin d => mask i j2 = false)).card := by
      unfold colsMinusMaskAx1 maskCountAx1
      have hsum : (∑ j2 : Fin d, if mask i j2 then 1 else 0)
          = (Finset.univ.filter (fun j2 : Fin d => mask i j2 = true)).card := by
        simp [Finset.sum_boole]
      have hsplit : (Finset.univ.filter (fun j2 : Fin d => mask i j2 = true)).card
          + (Finset.univ.filter (fun j2 : Fin d => mask i j2 = false)).card = d := by
        classical
        have := Finset.filter_card_add_filter_neg_card_eq_card
          (s := (Finset.univ : Finset (Fin d))) (p := fun j2 => mask i j2 = true)
        simp only [Finset.card_univ, Fintype.card_fin] at this
        have hneg : Finset.filter (fun a : Fin d => ¬ mask i a = true) Finset.univ
            = Finset.filter (fun j2 : Fin d => mask i j2 = false) Finset.univ := by
          apply Finset.filter_congr
          intro x _
          simp
        rw [hneg] at this
        exact this
      omega
    rw [hcard]; ring

/-- C5: `calculateELBO` returns exactly `lb_p - lb_q`, with
`lb_p = lbconst + sum((Pa-1)*E[ln tau]) - sum(Pb*E[tau])` and
`lb_q = sum(Qa*ln(Qb)) + sum((Qa-1)*E[ln tau]) - sum(Qb*E[tau]) - sum(lnGamma(Qa))`,
all sums over the canonical slice only (row 0 for `TauD_Node`, column 0 for
`TauN_Node`), and `lbconst` as fixed at construction by `precompute`. -/
theorem tau_elbo_is_lbp_minus_lbq {n d : ℕ} [NeZero n] [NeZero d]
    (Pa Pb Qa Qb QE QlnE : Fin n → Fin d → ℚ) (logf gammalnf : ℚ → ℚ) :
    calculateELBOTauD (lbconstTauD Pa Pb logf gammalnf) Pa Pb Qa Qb QE QlnE
        logf gammalnf
      = lbpSpec (lbconstTauD Pa Pb logf gammalnf) (rowSlice Pa) (rowSlice Pb)
          (rowSlice QlnE) (rowSlice QE)
        - lbqSpec (rowSlice Qa) (rowSlice Qb) (rowSlice QlnE) (rowSlice QE)
            logf gammalnf
    ∧ calculateELBOTauN (lbconstTauN Pa Pb logf gammalnf) Pa Pb Qa Qb QE QlnE
        logf gammalnf
      = lbpSpec (lbconstTauN Pa Pb logf gammalnf) (colSlice Pa) (colSlice Pb)
          (colSlice QlnE) (colSlice QE)
        - lbqSpec (colSlice Qa) (colSlice Qb) (colSlice QlnE) (colSlice QE)
            logf gammalnf :=
  ⟨rfl, rfl⟩

/-- C6: when the posterior parameters equal the prior parameters and
`lbconst` was computed from that same prior, `calculateELBO` returns `0`
for any cached expectation grids: the expectation-weighted terms cancel
between `lb_p` and `lb_q`. -/
theorem tau_elbo_zero_when_posterior_is_prior {n d : ℕ} [NeZero n] [NeZero d]
    (Pa Pb Qa Qb QE QlnE : Fin n → Fin d → ℚ) (logf gammalnf : ℚ → ℚ)
    (lbcD lbcN : ℚ) (hQa : Qa = Pa) (hQb : Qb = Pb)
    (hcD : lbcD = lbconstTauD Pa Pb logf gammalnf)
    (hcN : lbcN = lbconstTauN Pa Pb logf gammalnf) :
    calculateELBOTauD lbcD Pa Pb Qa Qb QE QlnE logf gammalnf = 0
    ∧ calculateELBOTauN lbcN Pa Pb Qa Qb QE QlnE logf gammalnf = 0 := by
  subst hQa hQb hcD hcN
  constructor
  · unfold calculateELBOTauD lbconstTauD
    rw [Finset.sum_sub_distrib]
    ring
  · unfold calculateELBOTauN lbconstTauN
    rw [Finset.sum_sub_distrib]
    ring

/-- C7: the shared-precision broadcast invariant is preserved by every
update: identical rows of the prior grids give identical rows of the
posterior grids for `TauD_Node`, and identical columns give identical
columns for `TauN_Node`. -/
theorem tau_update_preserves_broadcast {n d k : ℕ} (PD PN : GammaParams n d)
    (Y : Fin n → Fin d → ℚ) (mask : Fin n → Fin d → Bool)
    (Z ZZ : Fin n → Fin k → ℚ) (W WW : Fin d → Fin k → ℚ)
    (i i2 : Fin n) (j j2 : Fin d)
    (hDa : ∀ r r2 c, PD.a r c = PD.a r2 c) (hDb : ∀ r r2 c, PD.b r c = PD.b r2 c)
    (hNa : ∀ r c c2, PN.a r c = PN.a r c2) (hNb : ∀ r c c2, PN.b r c = PN.b r c2) :
    (updateParametersTauD PD Y mask Z ZZ W WW).a i j
        = (updateParametersTauD PD Y mask Z ZZ W WW).a i2 j
    ∧ (updateParametersTauD PD Y mask Z ZZ W WW).b i j
        = (updateParametersTauD PD Y mask Z ZZ W WW).b i2 j
    ∧ (updateParametersTauN PN Y mask Z ZZ W WW).a i j
        = (updateParametersTauN PN Y mask Z ZZ W WW).a i j2
    ∧ (updateParametersTauN PN Y mask Z ZZ W WW).b i j
        = (updateParametersTauN PN Y mask Z ZZ W WW).b i j2 := by
  refine ⟨?_, ?_, ?_, ?_⟩
  · show PD.a i j + (rowsMinusMaskAx0 mask j : ℚ) / 2
        = PD.a i2 j + (rowsMinusMaskAx0 mask j : ℚ) / 2
    rw [hDa i i2 j]
  · show PD.b i j + tmpTauD Y mask Z ZZ W WW j / 2
        = PD.b i2 j + tmpTauD Y mask Z ZZ W WW j / 2
    rw [hDb i i2 j]
  · show PN.a i j + (colsMinusMaskAx1 mask i : ℚ) / 2
        = PN.a i j2 + (colsMinusMaskAx1 mask i : ℚ) / 2
    rw [hNa i j j2]
  · show PN.b i j + tmpTauN Y mask Z ZZ W WW i / 2
        = PN.b i j2 + tmpTauN Y mask Z ZZ W WW i / 2
    rw [hNb i j j2]

/-- C8: `TauN_Node.updateParameters` is the exact axis-swapped mirror of
`TauD_Node.updateParameters`: its posterior equals the transpose of the
posterior produced by the `TauD` update on the transposed observation and
mask, with the score and loading expectation pairs exchanged and the prior
transposed. -/
theorem tauN_update_is_mirror_of_tauD {n d k : ℕ} (P : GammaParams n d)
    (Y : Fin n → Fin d → ℚ) (mask : Fin n → Fin d → Bool)
    (Z ZZ : Fin n → Fin k → ℚ) (W WW : Fin d → Fin k → ℚ) :
    updateParametersTauN P Y mask Z ZZ W WW
      = ⟨fun i j => (updateParametersTauD ⟨transposeQ P.a, transposeQ P.b⟩
            (transposeQ Y) (transposeB mask) W WW Z ZZ).a j i,
         fun i j => (updateParametersTauD ⟨transposeQ P.a, transposeQ P.b⟩
            (transposeQ Y) (transposeB mask) W WW Z ZZ).b j i⟩ := by
  obtain ⟨h1, h2⟩ := updateTauN_eq_mirror P Y mask Z ZZ W WW
  calc updateParametersTauN P Y mask Z ZZ W WW
      = ⟨(updateParametersTauN P Y mask Z ZZ W WW).a,
         (updateParametersTauN P Y mask Z ZZ W WW).b⟩ := rfl
    _ = _ := by rw [h1, h2]

/-- C9: `updateParameters` mutates only the node's own posterior and its
derived expectation cache: the prior, the observation data and mask reached
through the Markov blanket, the factor expectations, the cached constants
and the stored sample are all unchanged, for both node types. -/
theorem tau_update_frame {n d k : ℕ} (digammaf logf : ℚ → ℚ)
    (stD : TauDState n d k) (stN : TauNState n d k) :
    ((updateStateTauD digammaf logf stD).P = stD.P
     ∧ (updateStateTauD digammaf logf stD).Ydata = stD.Ydata
     ∧ (updateStateTauD digammaf logf stD).Ymask = stD.Ymask
     ∧ (updateStateTauD digammaf logf stD).Zexp = stD.Zexp
     ∧ (updateStateTauD digammaf logf stD).Wexp = stD.Wexp
     ∧ (updateStateTauD digammaf logf stD).cachedN = stD.cachedN
     ∧ (updateStateTauD digammaf logf stD).lbconst = stD.lbconst
     ∧ (updateStateTauD digammaf logf stD).samp = stD.samp
     ∧ (updateStateTauD digammaf logf stD).Q
         = updateParametersTauD stD.P stD.Ydata stD.Ymask
             stD.Zexp.1 stD.Zexp.2 stD.Wexp.1 stD.Wexp.2
     ∧ (updateStateTauD digammaf logf stD).Qexp
         = gammaExpectations digammaf logf
             (updateParametersTauD stD.P stD.Ydata stD.Ymask
               stD.Zexp.1 stD.Zexp.2 stD.Wexp.1 stD.Wexp.2))
    ∧ ((updateStateTauN digammaf logf stN).P = stN.P
     ∧ (updateStateTauN digammaf logf stN).Ydata = stN.Ydata
     ∧ (updateStateTauN digammaf logf stN).Ymask = stN.Ymask
     ∧ (updateStateTauN digammaf logf stN).Zexp = stN.Zexp
     ∧ (updateStateTauN digammaf logf stN).Wexp = stN.Wexp
     ∧ (updateStateTauN digammaf logf stN).cachedD = stN.cachedD
     ∧ (updateStateTauN digammaf logf stN).lbconst = stN.lbconst
     ∧ (updateStateTauN digammaf logf stN).samp = stN.samp
     ∧ (updateStateTauN digammaf logf stN).Q
         = updateParametersTauN stN.P stN.Ydata stN.Ymask
             stN.Zexp.1 stN.Zexp.2 stN.Wexp.1 stN.Wexp.2
     ∧ (updateStateTauN digammaf logf stN).Qexp
         = gammaExpectations digammaf logf
             (updateParametersTauN stN.P stN.Ydata stN.Ymask
               stN.Zexp.1 stN.Zexp.2 stN.Wexp.1 stN.Wexp.2)) :=
  ⟨⟨rfl, rfl, rfl, rfl, rfl, rfl, rfl, rfl, rfl, rfl⟩,
   ⟨rfl, rfl, rfl, rfl, rfl, rfl, rfl, rfl, rfl, rfl⟩⟩

/-- C10: for every value of the (never read) `distrib` argument, `sample`
draws from a Gamma distribution built from the first row (for `TauD_Node`)
or first column (for `TauN_Node`) of the prior parameters, stores the
realization in `samp` and returns it; replacing the posterior `Q` and its
expectation cache changes nothing about the draw. -/
theorem tau_sample_uses_prior_slice {n d k : ℕ} [NeZero n] [NeZero d]
    (stD : TauDState n d k) (stN : TauNState n d k) (distrib distrib2 : String)
    (drawD : (Fin d → ℚ) → (Fin d → ℚ) → Fin d → ℚ)
    (drawN : (Fin n → ℚ) → (Fin n → ℚ) → Fin n → ℚ)
    (Q2 : GammaParams n d) (E2 : ExpCache n d) :
    ((sampleTauD stD distrib drawD).1 = drawD (rowSlice stD.P.a) (rowSlice stD.P.b)
     ∧ (sampleTauD stD distrib drawD).2
         = { stD with samp := some ((sampleTauD stD distrib drawD).1) }
     ∧ sampleTauD stD distrib drawD = sampleTauD stD distrib2 drawD
     ∧ (sampleTauD { stD with Q := Q2, Qexp := E2 } distrib drawD).1
         = (sampleTauD stD distrib drawD).1)
    ∧ ((sampleTauN stN distrib drawN).1 = drawN (colSlice stN.P.a) (colSlice stN.P.b)
     ∧ (sampleTauN stN distrib drawN).2
         = { stN with samp := some ((sampleTauN stN distrib drawN).1) }
     ∧ sampleTauN stN distrib drawN = sampleTauN stN distrib2 drawN
     ∧ (sampleTauN { stN with Q := Q2, Qexp := E2 } distrib drawN).1
         = (sampleTauN stN distrib drawN).1) :=
  ⟨⟨rfl, rfl, rfl, rfl⟩, ⟨rfl, rfl, rfl, rfl⟩⟩

/-! ### Concrete fixtures for witnesses -/

/-- All-ones 1×1 rational grid. -/
def oneM : Fin 1 → Fin 1 → ℚ := fun _ _ => 1

/-- Unit prior on a 1×1 grid. -/
def oneP : GammaParams 1 1 := ⟨oneM, oneM⟩

/-- Mask marking every entry of a 1×1 grid missing. -/
def fullMask : Fin 1 → Fin 1 → Bool := fun _ _ => true

/-- All-ones expectation cache. -/
def cacheOne : ExpCache 1 1 := ⟨oneM, oneM⟩

/-- Concrete `TauD_Node` state on a fully masked 1×1 observation. -/
def stD1 : TauDState 1 1 1 :=
  ⟨oneP, oneP, cacheOne, oneM, fullMask, (oneM, oneM), (oneM, oneM), 1, 0, none⟩

/-- Concrete `TauN_Node` state on a fully masked 1×1 observation. -/
def stN1 : TauNState 1 1 1 :=
  ⟨oneP, oneP, cacheOne, oneM, fullMask, (oneM, oneM), (oneM, oneM), 1, 0, none⟩

/-- Concrete Gamma draw returning the shape vector. -/
def drawFst : (Fin 1 → ℚ) → (Fin 1 → ℚ) → Fin 1 → ℚ := fun a _ => a

/-- The default `distrib` argument value. -/
def distribP : String := "P"

/-- A non-default `distrib` argument value. -/
def distribQ : String := "Q"

/-! ### Witnesses -/

/-- Witness for C1 at a fully masked 1×1 observation. -/
theorem tau_allMissing_posterior_is_prior_witness :
    (updateParametersTauD oneP oneM fullMask oneM oneM oneM oneM).a 0 0 = oneP.a 0 0
    ∧ (updateParametersTauD oneP oneM fullMask oneM oneM oneM oneM).b 0 0 = oneP.b 0 0
    ∧ tmpTauD oneM fullMask oneM oneM oneM oneM 0 = 0
    ∧ (updateParametersTauN oneP oneM fullMask oneM oneM oneM oneM).a 0 0 = oneP.a 0 0
    ∧ (updateParametersTauN oneP oneM fullMask oneM oneM oneM oneM).b 0 0 = oneP.b 0 0
    ∧ tmpTauN oneM fullMask oneM oneM oneM oneM 0 = 0 :=
  tau_allMissing_posterior_is_prior oneP oneP oneM oneM fullMask fullMask
    oneM oneM oneM oneM 0 0 0 0 (fun _ => rfl) (fun _ => rfl)

/-- Witness for C5 at concrete 1×1 grids with `id` standing for the
transcendental functions. -/
theorem tau_elbo_is_lbp_minus_lbq_witness :
    calculateELBOTauD (lbconstTauD oneM oneM id id) oneM oneM oneM oneM oneM oneM
        id id
      = lbpSpec (lbconstTauD oneM oneM id id) (rowSlice oneM) (rowSlice oneM)
          (rowSlice oneM) (rowSlice oneM)
        - lbqSpec (rowSlice oneM) (rowSlice oneM) (rowSlice oneM) (rowSlice oneM)
            id id
    ∧ calculateELBOTauN (lbconstTauN oneM oneM id id) oneM oneM oneM oneM oneM oneM
        id id
      = lbpSpec (lbconstTauN oneM oneM id id) (colSlice oneM) (colSlice oneM)
          (colSlice oneM) (colSlice oneM)
        - lbqSpec (colSlice oneM) (colSlice oneM) (colSlice oneM) (colSlice oneM)
            id id :=
  tau_elbo_is_lbp_minus_lbq oneM oneM oneM oneM oneM oneM id id

/-- Witness for C6: with posterior equal to prior on concrete grids both
ELBO contributions evaluate to `0`. -/
theorem tau_elbo_zero_when_posterior_is_prior_witness :
    calculateELBOTauD (lbconstTauD oneM oneM id id) oneM oneM oneM oneM oneM oneM
        id id = 0
    ∧ calculateELBOTauN (lbconstTauN oneM oneM id id) oneM oneM oneM oneM oneM oneM
        id id = 0 :=
  tau_elbo_zero_when_posterior_is_prior oneM oneM oneM oneM oneM oneM id id
    (lbconstTauD oneM oneM id id) (lbconstTauN oneM oneM id id) rfl rfl rfl rfl

/-- Witness for C7 at a constant concrete prior. -/
theorem tau_update_preserves_broadcast_witness :
    (updateParametersTauD oneP oneM fullMask oneM oneM oneM oneM).a 0 0
        = (updateParametersTauD oneP oneM fullMask oneM oneM oneM oneM).a 0 0
    ∧ (updateParametersTauD oneP oneM fullMask oneM oneM oneM oneM).b 0 0
        = (updateParametersTauD oneP oneM fullMask oneM oneM oneM oneM).b 0 0
    ∧ (updateParametersTauN oneP oneM fullMask oneM oneM oneM oneM).a 0 0
        = (updateParametersTauN oneP oneM fullMask oneM oneM oneM oneM).a 0 0
    ∧ (updateParametersTauN oneP oneM fullMask oneM oneM oneM oneM).b 0 0
        = (updateParametersTauN oneP oneM fullMask oneM oneM oneM oneM).b 0 0 :=
  tau_update_preserves_broadcast oneP oneP oneM fullMask oneM oneM oneM oneM
    0 0 0 0 (fun _ _ _ => rfl) (fun _ _ _ => rfl) (fun _ _ _ => rfl)
    (fun _ _ _ => rfl)

/-- Witness for C10 at a concrete node state and draw function. -/
theorem tau_sample_uses_prior_slice_witness :
    ((sampleTauD stD1 distribP drawFst).1 = drawFst (rowSlice stD1.P.a) (rowSlice stD1.P.b)
     ∧ (sampleTauD stD1 distribP drawFst).2
         = { stD1 with samp := some ((sampleTauD stD1 distribP drawFst).1) }
     ∧ sampleTauD stD1 distribP drawFst = sampleTauD stD1 distribQ drawFst
     ∧ (sampleTauD { stD1 with Q := oneP, Qexp := cacheOne } distribP drawFst).1
         = (sampleTauD stD1 distribP drawFst).1)
    ∧ ((sampleTauN stN1 distribP drawFst).1 = drawFst (colSlice stN1.P.a) (colSlice stN1.P.b)
     ∧ (sampleTauN stN1 distribP drawFst).2
         = { stN1 with samp := some ((sampleTauN stN1 distribP drawFst).1) }
     ∧ sampleTauN stN1 distribP drawFst = sampleTauN stN1 distribQ drawFst
     ∧ (sampleTauN { stN1 with Q := oneP, Qexp := cacheOne } distribP drawFst).1
         = (sampleTauN stN1 distribP drawFst).1) :=
  tau_sample_uses_prior_slice stD1 stN1 distribP distribQ drawFst drawFst
    oneP cacheOne

end BioFAM

namespace BioFAM

example :
    (updateParametersTauD (n := 2) (d := 2) (k := 1)
      ⟨fun _ _ => 1, fun _ _ => 1⟩ (fun _ j => (j : ℚ) + 1)
      (fun _ _ => false) (fun _ _ => 1) (fun _ _ => 1)
      (fun j _ => (j : ℚ) + 1) (fun j _ => ((j : ℚ) + 1) ^ 2)).a 0 0 = 2 := by
  simp [updateParametersTauD, rowsMinusMaskAx0, maskCountAx0, Fin.sum_univ_two]
  norm_num

example :
    (updateParametersTauD (n := 2) (d := 2) (k := 1)
      ⟨fun _ _ => 1, fun _ _ => 1⟩ (fun _ j => (j : ℚ) + 1)
      (fun _ _ => false) (fun _ _ => 1) (fun _ _ => 1)
      (fun j _ => (j : ℚ) + 1) (fun j _ => ((j : ℚ) + 1) ^ 2)).b 1 1 = 1 := by
  simp [updateParametersTauD, tmpTauD, term1TauD, term2TauD, term3TauD,
    term4TauD, zeroFill, dotZWt, maskedSumAx0, dotd, transposeQ, transposeB,
    Fin.sum_univ_two, Fin.sum_univ_one]
  norm_num

end BioFAM
